import Mathlib

/-!
Verification of the Node.js proto plugin (crates/node/src/proto.rs and
crates/common/src/package_json.rs): a shallow embedding of the version
catalog loader, the alias resolver, the manifest version parser and the
prebuilt-artifact locator, together with theorems about the spec's claims.

Machine strings are modelled as Lean `String` (a structure over `List Char`);
helper functions are written over `.data` so that every definition reduces in
the kernel. Rust byte indexing is modelled by character indexing: all the
strings the plugin slices (`"v..."` release tags, `"lts-..."` aliases) are
ASCII, where the two coincide; on a non-ASCII first character Rust would
panic on a char boundary, a case outside every claim considered here.
-/

deriving instance DecidableEq for Except

namespace NodePlugin

/-! ### String helpers (kernel-computable) -/

def strIsEmpty (s : String) : Bool := s.data.isEmpty

def strStarts (s p : String) : Bool := p.data.isPrefixOf s.data

def strDrop (s : String) (n : Nat) : String := ⟨s.data.drop n⟩

/-- ASCII lower-casing of one character (the channel names the plugin
lower-cases are ASCII). -/
def asciiLowerChar (c : Char) : Char :=
  if 65 ≤ c.toNat && c.toNat ≤ 90 then Char.ofNat (c.toNat + 32) else c

def strLower (s : String) : String := ⟨s.data.map asciiLowerChar⟩

def isWsChar (c : Char) : Bool := c = ' ' || c = '\t' || c = '\n' || c = '\r'

def strTrim (s : String) : String :=
  ⟨((s.data.dropWhile isWsChar).reverse.dropWhile isWsChar).reverse⟩

def isDigitChar (c : Char) : Bool := 48 ≤ c.toNat && c.toNat ≤ 57

def digitsVal (cs : List Char) : Nat :=
  cs.foldl (fun a c => a * 10 + (c.toNat - 48)) 0

def allDigits (cs : List Char) : Bool := !cs.isEmpty && cs.all isDigitChar

/-- Split a character list at the dots, like `str::split('.')`. -/
def splitDot : List Char → List (List Char)
  | [] => [[]]
  | c :: rest =>
    let r := splitDot rest
    if c = '.' then [] :: r
    else
      match r with
      | [] => [[c]]
      | g :: gs => (c :: g) :: gs

/-- Split off a trailing pre-release/build tag: everything from the first
`-` or `+` on (separator included) is the tag. -/
def splitTag : List Char → List Char × List Char
  | [] => ([], [])
  | c :: rest =>
    if c = '-' || c = '+' then ([], c :: rest)
    else
      let p := splitTag rest
      (c :: p.1, p.2)

/-! ### Version data model -/

/-- A resolved semantic version: `major.minor.patch` plus the optional
pre-release/build tag text (separator included, empty when absent). -/
structure Version where
  major : Nat
  minor : Nat
  patch : Nat
  tag : String := ""
deriving DecidableEq, Repr

/-- Modelled from the spec: semantic-version parsing (the `semver` parser the
source calls is not part of this repository). Accepts `major.minor.patch`
with decimal components, optionally followed by a pre-release/build tag
introduced by `-` or `+`; anything else fails. -/
def Version.parse (s : String) : Option Version :=
  let p := splitTag s.data
  match splitDot p.1 with
  | [a, b, c] =>
    if allDigits a && allDigits b && allDigits c then
      some ⟨digitsVal a, digitsVal b, digitsVal c, ⟨p.2⟩⟩
    else none
  | _ => none

/-- Display form, as Rust's `semver::Version` Display prints it. -/
def Version.toString (v : Version) : String :=
  Nat.repr v.major ++ "." ++ Nat.repr v.minor ++ "." ++ Nat.repr v.patch ++ v.tag

/-- A resolved version specifier (the `version_spec::VersionSpec` enum):
canary, a named alias, or a concrete version. -/
inductive VersionSpec where
  | canary
  | alias (name : String)
  | version (v : Version)
deriving DecidableEq, Repr

def VersionSpec.is_canary : VersionSpec → Bool
  | .canary => true
  | _ => false

def VersionSpec.toString : VersionSpec → String
  | .canary => "canary"
  | .alias a => a
  | .version v => v.toString

def isAlphaChar (c : Char) : Bool :=
  (97 ≤ c.toNat && c.toNat ≤ 122) || (65 ≤ c.toNat && c.toNat ≤ 90)

/-- Modelled from the spec: parsing of a resolved version specifier (the
`version_spec` crate is not part of this repository). A leading `v` marker
is tolerated, `canary` denotes the canary channel, a concrete semantic
version parses to the version variant, and an alphabetic word is a named
alias. -/
def VersionSpec.parse (s : String) : Option VersionSpec :=
  let t := strTrim s
  let t := if strStarts t "v" then strDrop t 1 else t
  if t = "canary" then some .canary
  else
    match Version.parse t with
    | some v => some (.version v)
    | none =>
      match t.data with
      | c :: _ => if isAlphaChar c then some (.alias t) else none
      | [] => none

/-- An unresolved version specifier (the `version_spec::UnresolvedVersionSpec`
enum): canary, a named alias, a range/constraint expression, or an exact
version. -/
inductive UnresolvedVersionSpec where
  | canary
  | alias (name : String)
  | req (expr : String)
  | version (v : Version)
deriving DecidableEq, Repr

def isReqStart (c : Char) : Bool :=
  c = '>' || c = '<' || c = '=' || c = '^' || c = '~'

def dropReqOps (cs : List Char) : List Char :=
  cs.dropWhile (fun c => isReqStart c || c = ' ')

def isPartialVersionChars (cs : List Char) : Bool :=
  match splitDot cs with
  | [a] => allDigits a
  | [a, b] => allDigits a && allDigits b
  | [a, b, c] => allDigits a && allDigits b && allDigits c
  | _ => false

/-- Modelled from the spec: parsing of an unresolved version specifier (the
`version_spec` crate is not part of this repository). The trimmed content is
either `canary`, a comparator-led range expression over a (partial) version,
or an exact semantic version (an optional `v` marker is tolerated); anything
else — e.g. `not-a-version` — fails to parse. -/
def UnresolvedVersionSpec.parse (s : String) : Option UnresolvedVersionSpec :=
  let t := strTrim s
  if t = "canary" then some .canary
  else
    match t.data with
    | [] => none
    | c :: _ =>
      if isReqStart c then
        if isPartialVersionChars (dropReqOps t.data) then some (.req t) else none
      else
        let t2 := if strStarts t "v" then strDrop t 1 else t
        match Version.parse t2 with
        | some v => some (.version v)
        | none => none

/-! ### Platform data model -/

inductive HostOS where
  | Linux
  | MacOS
  | Windows
  | FreeBSD
deriving DecidableEq, Repr

inductive HostArch where
  | X64
  | X86
  | Arm
  | Arm64
  | Powerpc64
  | S390x
  | Riscv64
deriving DecidableEq, Repr

structure ProtoEnvironment where
  os : HostOS
  arch : HostArch
deriving DecidableEq, Repr

/-- The error taxonomy of the spec, plus `Panic` for Rust panics
(`unwrap`, out-of-bounds indexing, `unreachable!`), tagged with the panic
message so distinct panic sites stay distinguishable. -/
inductive Err where
  | MalformedVersion (raw : String)
  | InvalidVersionSpec (content : String)
  | UnsupportedPlatform (os : HostOS) (arch : HostArch)
  | CatalogUnavailable
  | Panic (msg : String)
deriving DecidableEq, Repr

/-! ### Artifact locator (proto.rs `map_arch`, `download_prebuilt`) -/

def NAME : String := "Node.js"

def BIN : String := "node"

/-- Embedding of `map_arch` (proto.rs lines 25–43); the catch-all arm is the
source's `unreachable!()`. -/
def map_arch (os : HostOS) (arch : HostArch) : Except Err String :=
  match arch with
  | .Arm => .ok "armv7l"
  | .Arm64 => .ok "arm64"
  | .Powerpc64 => if os = .Linux then .ok "ppc64le" else .ok "ppc64"
  | .S390x => .ok "s390x"
  | .X64 => .ok "x64"
  | .X86 => .ok "x86"
  | _ => .error (.Panic "internal error: entered unreachable code")

/-- The `permutations!` support matrix of `download_prebuilt`
(proto.rs lines 54–58); an operating system absent from the macro's map has
no supported architectures. -/
def supportedMatrix (os : HostOS) : List HostArch :=
  match os with
  | .Linux => [.X64, .Arm64, .Arm, .Powerpc64, .S390x]
  | .MacOS => [.X64, .Arm64]
  | .Windows => [.X64, .X86, .Arm64]
  | .FreeBSD => []

/-- Modelled from the spec: `check_supported_os_and_arch` (from the
`proto_pdk` crate, not part of this repository) validates the pair against
the matrix and fails with `UnsupportedPlatform` naming both values. -/
def check_supported_os_and_arch (os : HostOS) (arch : HostArch) : Except Err Unit :=
  if arch ∈ supportedMatrix os then .ok () else .error (.UnsupportedPlatform os arch)

/-- One entry of the remote release index (`NodeDistVersion` from the
`node_common` crate, as the core consumes it): the raw tagged version string
and the untagged LTS marker, either a channel name or a boolean state. -/
inductive NodeDistLTS where
  | name (s : String)
  | state (b : Bool)
deriving DecidableEq, Repr

structure NodeDistVersion where
  version : String
  lts : NodeDistLTS := .state false
deriving DecidableEq, Repr

/-- The fields of `DownloadPrebuiltOutput` the plugin fills (the source field
`archive_prefix` is named `archive_base` here for lexical reasons). -/
structure DownloadPrebuiltOutput where
  archive_base : Option String := none
  download_url : String := ""
  download_name : Option String := none
  checksum_url : Option String := none
deriving DecidableEq, Repr

def releaseHost : String := "https://nodejs.org/download/release"

def nightlyHost : String := "https://nodejs.org/download/nightly"

/-- Embedding of `download_prebuilt` (proto.rs lines 45–107). The nightly
index fetch is passed in as the already-produced result of the Remote
Catalog Fetcher (`.error .CatalogUnavailable` models a failed fetch); it is
consulted only on the canary path. Indexing `response[0]` of an empty index
is the corresponding Rust panic, and the `unreachable!()` arms are panics. -/
def download_prebuilt (env : ProtoEnvironment) (inputVersion : VersionSpec)
    (nightlyIndex : Except Err (List NodeDistVersion)) :
    Except Err DownloadPrebuiltOutput := do
  check_supported_os_and_arch env.os env.arch
  let arch ← map_arch env.os env.arch
  let hv ←
    if inputVersion.is_canary then do
      let response ← nightlyIndex
      match response.head? with
      | none => Except.error (.Panic "index out of bounds: the len is 0")
      | some item0 =>
        match VersionSpec.parse item0.version with
        | some v => Except.ok (nightlyHost, v)
        | none => Except.error (.MalformedVersion item0.version)
    else Except.ok (releaseHost, inputVersion)
  let host := hv.1
  let version := hv.2
  let pre ←
    match env.os with
    | .Linux => Except.ok ("node-v" ++ version.toString ++ "-linux-" ++ arch)
    | .MacOS =>
      -- `VersionSpec::Version` gives the parsed version; any other variant
      -- takes the source's "Doesn't matter" placeholder 20.0.0.
      let parsed_version : Version :=
        match version with
        | .version v => v
        | _ => ⟨20, 0, 0, ""⟩
      if env.arch = .Arm64 && parsed_version.major < 16 then
        Except.ok ("node-v" ++ version.toString ++ "-darwin-x64")
      else
        Except.ok ("node-v" ++ version.toString ++ "-darwin-" ++ arch)
    | .Windows => Except.ok ("node-v" ++ version.toString ++ "-win-" ++ arch)
    | .FreeBSD => Except.error (.Panic "internal error: entered unreachable code")
  let filename := if env.os = .Windows then pre ++ ".zip" else pre ++ ".tar.xz"
  Except.ok
    { archive_base := some pre
      download_url := host ++ "/v" ++ version.toString ++ "/" ++ filename
      download_name := some filename
      checksum_url := some (host ++ "/v" ++ version.toString ++ "/SHASUMS256.txt") }

/-! ### Version catalog (proto.rs `load_versions`) -/

/-- The alias table, modelling the `HashMap<String, Version>` by an
association list with unique keys; only `aliasLookup` observes it. -/
def aliasLookup : List (String × Version) → String → Option Version
  | [], _ => none
  | (k, v) :: rest, a => if k = a then some v else aliasLookup rest a

def aliasContains (m : List (String × Version)) (a : String) : Bool :=
  (aliasLookup m a).isSome

/-- `HashMap::insert`: overwrite the key when present, append otherwise. -/
def aliasInsert : List (String × Version) → String → Version → List (String × Version)
  | [], a, v => [(a, v)]
  | (k, w) :: rest, a, v =>
    if k = a then (k, v) :: rest else (k, w) :: aliasInsert rest a v

structure LoadVersionsOutput where
  latest : Option Version := none
  aliases : List (String × Version) := []
  versions : List Version := []
deriving DecidableEq, Repr

/-- Embedding of proto.rs line 132, `Version::parse(&item.version[1..])?`:
the first character is sliced off unconditionally (Rust panics when the
string is empty) and the remainder parsed; a parse failure aborts the load
naming the raw string, per the spec's `MalformedVersion`. -/
def parseNodeVersion (raw : String) : Except Err Version :=
  if strIsEmpty raw then .error (.Panic "byte index 1 is out of bounds")
  else
    match Version.parse (strDrop raw 1) with
    | some v => .ok v
    | none => .error (.MalformedVersion raw)

/-- The channel-marker block of the `load_versions` loop (proto.rs lines
139–151), acting on the alias table: on a named marker, lower-case it,
insert `stable` if absent, then insert the lower-cased name if absent; a
boolean marker changes nothing. -/
def applyMarkerAliases (al : List (String × Version)) (m : NodeDistLTS)
    (version : Version) : List (String × Version) :=
  match m with
  | .name alias0 =>
    let aliasL := strLower alias0
    -- The first encounter of an lts is the latest stable
    let alS := if aliasContains al "stable" then al else aliasInsert al "stable" version
    -- The first encounter of an lts is the latest version for that alias
    if aliasContains alS aliasL then alS else aliasInsert alS aliasL version
  | .state _ => al

/-- The same block as a transformation of the whole accumulated output (only
the alias table is touched). -/
def applyMarker (acc : LoadVersionsOutput) (m : NodeDistLTS) (version : Version) :
    LoadVersionsOutput :=
  { acc with aliases := applyMarkerAliases acc.aliases m version }

/-- The loop body of `load_versions` (proto.rs lines 131–154), one entry at a
time with its running index and accumulated output. -/
def loadVersionsGo (index : Nat) (acc : LoadVersionsOutput) :
    List NodeDistVersion → Except Err LoadVersionsOutput
  | [] => .ok acc
  | item :: rest =>
    match parseNodeVersion item.version with
    | .error e => .error e
    | .ok version =>
      -- First item is always the latest
      let acc1 := if index = 0 then { acc with latest := some version } else acc
      let acc2 := applyMarker acc1 item.lts version
      loadVersionsGo (index + 1) { acc2 with versions := acc2.versions ++ [version] } rest

/-- Embedding of `load_versions` (proto.rs lines 125–161), over the already
fetched release index. The final unconditional
`aliases.insert("latest", output.latest.unwrap())` panics on a
never-assigned latest. -/
def load_versions (response : List NodeDistVersion) : Except Err LoadVersionsOutput :=
  match loadVersionsGo 0 {} response with
  | .error e => .error e
  | .ok out =>
    match out.latest with
    | some latest => .ok { out with aliases := aliasInsert out.aliases "latest" latest }
    | none => .error (.Panic "called Option.unwrap on a None value")

/-! Specification-side observers used to state the catalog claims. -/

/-- Left-biased choice on options (`optOr a b` is `a` unless `a` is `none`). -/
def optOr : Option Version → Option Version → Option Version
  | some v, _ => some v
  | none, b => b

/-- Does a catalog entry carry a named channel marker? -/
def hasMarker (it : NodeDistVersion) : Bool :=
  match it.lts with
  | .name _ => true
  | .state _ => false

/-- The lower-cased channel name of a marker, when it is a named one. -/
def lowerMarker : NodeDistLTS → Option String
  | .name s => some (strLower s)
  | .state _ => none

/-- The version an entry's raw string parses to, if it does. -/
def parsedOf (it : NodeDistVersion) : Option Version :=
  (parseNodeVersion it.version).toOption

/-- The version the alias table is expected to bind an alias to, read off the
raw entry list: `stable` is the first entry with any named marker, any other
alias the first entry whose lower-cased channel name equals it. -/
def specAlias (a : String) (resp : List NodeDistVersion) : Option Version :=
  if a = "stable" then (resp.find? hasMarker).bind parsedOf
  else (resp.find? (fun it => decide (lowerMarker it.lts = some a))).bind parsedOf

/-! ### Alias resolver (proto.rs `resolve_version`) -/

/-- Embedding of `resolve_version` (proto.rs lines 163–184): the returned
candidate replacement, `none` both for non-alias inputs and for aliases no
rule matches (the source returns a default `ResolveVersionOutput` there);
the operation itself never fails. -/
def resolve_version (initial : UnresolvedVersionSpec) : Option UnresolvedVersionSpec :=
  match initial with
  | .alias a =>
    if a = BIN then some (.alias "latest")
    else if a = "lts-*" || a = "lts/*" then some (.alias "stable")
    else if strStarts a "lts-" || strStarts a "lts/" then some (.alias (strDrop a 4))
    else none
  | _ => none

/-! ### JSON values and the dependency manifest (package_json.rs) -/

def lbraceChar : Char := Char.ofNat 123

def rbraceChar : Char := Char.ofNat 125

inductive JsonVal where
  | null
  | bool (b : Bool)
  | num (raw : String)
  | str (s : String)
  | arr (items : List JsonVal)
  | obj (fields : List (String × JsonVal))

def skipWs (cs : List Char) : List Char := cs.dropWhile isWsChar

def escCharJson (c : Char) : Option Char :=
  if c = '"' then some '"'
  else if c = '\\' then some '\\'
  else if c = '/' then some '/'
  else if c = 'n' then some '\n'
  else if c = 't' then some '\t'
  else if c = 'r' then some '\r'
  else if c = 'b' then some (Char.ofNat 8)
  else if c = 'f' then some (Char.ofNat 12)
  else none

/-- JSON string body after the opening quote (`\\u` escapes are left out of
the model; no claim involves them). -/
def parseStrBody : List Char → Option (String × List Char)
  | [] => none
  | '"' :: rest => some ("", rest)
  | '\\' :: rest =>
    match rest with
    | [] => none
    | e :: rest2 =>
      match escCharJson e with
      | some ec =>
        match parseStrBody rest2 with
        | some sr => some (⟨ec :: sr.1.data⟩, sr.2)
        | none => none
      | none => none
  | c :: rest =>
    match parseStrBody rest with
    | some sr => some (⟨c :: sr.1.data⟩, sr.2)
    | none => none

def numChar (c : Char) : Bool :=
  isDigitChar c || c = '.' || c = 'e' || c = 'E' || c = '+' || c = '-'

def parseJsonNum (cs : List Char) : Option (String × List Char) :=
  let body := cs.takeWhile numChar
  if body.isEmpty then none else some (⟨body⟩, cs.dropWhile numChar)

mutual

/-- Modelled from the spec: JSON deserialization of manifest content (the
source delegates to `serde_json`, which is not part of this repository).
A fueled recursive-descent parser; the fuel, instantiated to the input
length plus one, dominates the nesting depth. -/
def parseVal : Nat → List Char → Option (JsonVal × List Char)
  | 0, _ => none
  | fuel + 1, cs =>
    match skipWs cs with
    | [] => none
    | c :: rest =>
      if c = '"' then
        match parseStrBody rest with
        | some sr => some (.str sr.1, sr.2)
        | none => none
      else if c = lbraceChar then
        match skipWs rest with
        | c2 :: rest2 =>
          if c2 = rbraceChar then some (.obj [], rest2)
          else
            match parseObjItems fuel (c2 :: rest2) with
            | some fr => some (.obj fr.1, fr.2)
            | none => none
        | [] => none
      else if c = '[' then
        match skipWs rest with
        | c2 :: rest2 =>
          if c2 = ']' then some (.arr [], rest2)
          else
            match parseArrItems fuel (c2 :: rest2) with
            | some ir => some (.arr ir.1, ir.2)
            | none => none
        | [] => none
      else if c = 'n' then
        match rest with
        | 'u' :: 'l' :: 'l' :: r => some (.null, r)
        | _ => none
      else if c = 't' then
        match rest with
        | 'r' :: 'u' :: 'e' :: r => some (.bool true, r)
        | _ => none
      else if c = 'f' then
        match rest with
        | 'a' :: 'l' :: 's' :: 'e' :: r => some (.bool false, r)
        | _ => none
      else if c = '-' || isDigitChar c then
        match parseJsonNum (c :: rest) with
        | some nr => some (.num nr.1, nr.2)
        | none => none
      else none

def parseObjItems : Nat → List Char → Option (List (String × JsonVal) × List Char)
  | 0, _ => none
  | fuel + 1, cs =>
    match skipWs cs with
    | c :: rest =>
      if c = '"' then
        match parseStrBody rest with
        | some kr =>
          match skipWs kr.2 with
          | c2 :: rest2 =>
            if c2 = ':' then
              match parseVal fuel rest2 with
              | some vr =>
                match skipWs vr.2 with
                | c3 :: rest3 =>
                  if c3 = ',' then
                    match parseObjItems fuel rest3 with
                    | some more => some ((kr.1, vr.1) :: more.1, more.2)
                    | none => none
                  else if c3 = rbraceChar then some ([(kr.1, vr.1)], rest3)
                  else none
                | [] => none
              | none => none
            else none
          | [] => none
        | none => none
      else none
    | [] => none

def parseArrItems : Nat → List Char → Option (List JsonVal × List Char)
  | 0, _ => none
  | fuel + 1, cs =>
    match parseVal fuel cs with
    | some vr =>
      match skipWs vr.2 with
      | c :: rest =>
        if c = ',' then
          match parseArrItems fuel rest with
          | some more => some (vr.1 :: more.1, more.2)
          | none => none
        else if c = ']' then some ([vr.1], rest)
        else none
      | [] => none
    | none => none

end

def Json.parse (s : String) : Option JsonVal :=
  match parseVal (s.data.length + 1) s.data with
  | some vr => if (skipWs vr.2).isEmpty then some vr.1 else none
  | none => none

/-- The untagged `BinField` of package_json.rs: a string or a string map. -/
inductive BinField where
  | str (s : String)
  | map (m : List (String × String))
deriving DecidableEq, Repr

structure VoltaField where
  node : Option String := none
  npm : Option String := none
  pnpm : Option String := none
  yarn : Option String := none
deriving DecidableEq, Repr

/-- The `PackageJson` structure of package_json.rs; the `HashMap`-valued
`engines` field is an association list with unique keys. -/
structure PackageJson where
  bin : Option BinField := none
  engines : Option (List (String × String)) := none
  main : Option String := none
  name : Option String := none
  package_manager : Option String := none
  version : Option String := none
  volta : Option VoltaField := none
deriving DecidableEq, Repr

def jLookup (fields : List (String × JsonVal)) (k : String) : Option JsonVal :=
  match fields.find? (fun p => p.1 == k) with
  | some p => some p.2
  | none => none

def strMapInsert : List (String × String) → String → String → List (String × String)
  | [], k, v => [(k, v)]
  | (k0, v0) :: rest, k, v =>
    if k0 = k then (k0, v) :: rest else (k0, v0) :: strMapInsert rest k v

def strMapLookup : List (String × String) → String → Option String
  | [], _ => none
  | (k0, v0) :: rest, k => if k0 = k then some v0 else strMapLookup rest k

/-- Decode a JSON object as a `HashMap<String, String>`: every value must be
a string; sequential insertion, so a duplicate key keeps the later value. -/
def decodeStrMap (fields : List (String × JsonVal)) : Option (List (String × String)) :=
  fields.foldl
    (fun acc p =>
      match acc, p.2 with
      | some m, .str v => some (strMapInsert m p.1 v)
      | _, _ => none)
    (some [])

/-- Decode an optional `String` struct field: missing and `null` are `none`,
a string succeeds, any other shape fails deserialization. -/
def decodeOptString (fields : List (String × JsonVal)) (k : String) :
    Option (Option String) :=
  match jLookup fields k with
  | none => some none
  | some .null => some none
  | some (.str s) => some (some s)
  | some _ => none

def decodeOptStrMap (fields : List (String × JsonVal)) (k : String) :
    Option (Option (List (String × String))) :=
  match jLookup fields k with
  | none => some none
  | some .null => some none
  | some (.obj f) =>
    match decodeStrMap f with
    | some m => some (some m)
    | none => none
  | some _ => none

def decodeOptBin (fields : List (String × JsonVal)) :
    Option (Option BinField) :=
  match jLookup fields "bin" with
  | none => some none
  | some .null => some none
  | some (.str s) => some (some (.str s))
  | some (.obj f) =>
    match decodeStrMap f with
    | some m => some (some (.map m))
    | none => none
  | some _ => none

def decodeOptVolta (fields : List (String × JsonVal)) :
    Option (Option VoltaField) :=
  match jLookup fields "volta" with
  | none => some none
  | some .null => some none
  | some (.obj f) => do
    let node ← decodeOptString f "node"
    let npm ← decodeOptString f "npm"
    let pnpm ← decodeOptString f "pnpm"
    let yarn ← decodeOptString f "yarn"
    some (some ⟨node, npm, pnpm, yarn⟩)
  | some _ => none

/-- Deserialize a parsed JSON value as a `PackageJson` (serde semantics for
this struct: the top level must be an object, unknown fields are ignored,
declared fields must match their types, `Option` fields treat missing and
`null` as `None`). -/
def PackageJson.fromJson (v : JsonVal) : Option PackageJson :=
  match v with
  | .obj fields => do
    let bin ← decodeOptBin fields
    let engines ← decodeOptStrMap fields "engines"
    let mainF ← decodeOptString fields "main"
    let nameF ← decodeOptString fields "name"
    let pm ← decodeOptString fields "packageManager"
    let ver ← decodeOptString fields "version"
    let volta ← decodeOptVolta fields
    some ⟨bin, engines, mainF, nameF, pm, ver, volta⟩
  | _ => none

/-- `json::from_str::<PackageJson>`, as `parse_version_file` consumes it
(only success or failure is observed). -/
def PackageJson.from_str (s : String) : Option PackageJson :=
  (Json.parse s).bind PackageJson.fromJson

/-! ### Manifest version parser (proto.rs `parse_version_file`) -/

/-- The `UnresolvedVersionSpec::parse(...)?` step of `parse_version_file`
(proto.rs lines 227 and 232): a successful parse is returned, a failure is
fatal with `InvalidVersionSpec` naming the offending content. -/
def parseSpecOrFail (constraint : String) : Except Err (Option UnresolvedVersionSpec) :=
  match UnresolvedVersionSpec.parse constraint with
  | some spec => .ok (some spec)
  | none => .error (.InvalidVersionSpec constraint)

/-- The engines lookup of `parse_version_file` (proto.rs lines 225–229): no
`engines` mapping or no entry for the runtime's binary name means "no
constraint found". -/
def parseManifestEngines :
    Option (List (String × String)) → Except Err (Option UnresolvedVersionSpec)
  | some engines =>
    match strMapLookup engines BIN with
    | some constraint => parseSpecOrFail constraint
    | none => .ok none
  | none => .ok none

/-- Embedding of `parse_version_file` (proto.rs lines 217–236): the manifest
file name gets the tolerant structured path (an undeserializable manifest is
"no constraint found"), every other file the direct parse whose failure is
fatal. -/
def parse_version_file (file : String) (content : String) :
    Except Err (Option UnresolvedVersionSpec) :=
  if file = "package.json" then
    match PackageJson.from_str content with
    | some pj => parseManifestEngines pj.engines
    | none => .ok none
  else parseSpecOrFail content


/-! Concrete sample catalogs used to instantiate the catalog theorems. -/

def sampleResp : List NodeDistVersion := [⟨"v20.0.0", .state false⟩]

def sampleOut : LoadVersionsOutput :=
  { latest := some ⟨20, 0, 0, ""⟩
    aliases := [("latest", ⟨20, 0, 0, ""⟩)]
    versions := [⟨20, 0, 0, ""⟩] }

def sampleRespLts : List NodeDistVersion :=
  [⟨"v20.0.0", .state false⟩, ⟨"v18.18.2", .name "Hydrogen"⟩, ⟨"v18.18.1", .name "Hydrogen"⟩]

def sampleOutLts : LoadVersionsOutput :=
  { latest := some ⟨20, 0, 0, ""⟩
    aliases := [("stable", ⟨18, 18, 2, ""⟩), ("hydrogen", ⟨18, 18, 2, ""⟩),
      ("latest", ⟨20, 0, 0, ""⟩)]
    versions := [⟨20, 0, 0, ""⟩, ⟨18, 18, 2, ""⟩, ⟨18, 18, 1, ""⟩] }

/-! ## Supporting lemmas -/

/-- Merging two concatenated literals under a right-nested append. -/
theorem strMergeL (a b c : String) (h : a ++ b = c) (s : String) :
    a ++ (b ++ s) = c ++ s := by rw [← String.append_assoc, h]

theorem applyMarker_latest (acc : LoadVersionsOutput) (m : NodeDistLTS) (v : Version) :
    (applyMarker acc m v).latest = acc.latest := rfl

theorem applyMarker_versions (acc : LoadVersionsOutput) (m : NodeDistLTS) (v : Version) :
    (applyMarker acc m v).versions = acc.versions := rfl

theorem aliasLookup_insert (m : List (String × Version)) (k : String) (v : Version)
    (a : String) :
    aliasLookup (aliasInsert m k v) a = if k = a then some v else aliasLookup m a := by
  induction m with
  | nil => simp [aliasInsert, aliasLookup]
  | cons p rest ih =>
    obtain ⟨k0, v0⟩ := p
    by_cases hk : k0 = k
    · subst hk
      simp only [aliasInsert, if_pos rfl]
      by_cases ha : k0 = a
      · simp [aliasLookup, ha]
      · simp [aliasLookup, ha]
    · simp only [aliasInsert, if_neg hk]
      by_cases ha : k0 = a
      · subst ha
        have : ¬ k = k0 := fun hc => hk hc.symm
        simp [aliasLookup, this]
      · simp [aliasLookup, ha, ih]

theorem aliasLookup_applyMarkerAliases (al : List (String × Version)) (s : String)
    (v : Version) (a : String) :
    aliasLookup (applyMarkerAliases al (.name s) v) a =
      if a = "stable" then optOr (aliasLookup al a) (some v)
      else if strLower s = a then optOr (aliasLookup al a) (some v)
      else aliasLookup al a := by
  by_cases hA : a = "stable"
  · subst hA
    rw [if_pos rfl]
    cases hc1 : aliasLookup al "stable" with
    | some w =>
      cases hc2 : aliasLookup al (strLower s) with
      | some w2 =>
        simp [applyMarkerAliases, aliasContains, hc1, hc2, optOr]
      | none =>
        have hne : ¬ strLower s = "stable" := by
          intro he; rw [he, hc1] at hc2; cases hc2
        simp [applyMarkerAliases, aliasContains, hc1, hc2, aliasLookup_insert, hne, optOr]
    | none =>
      by_cases hL : strLower s = "stable"
      · simp [applyMarkerAliases, aliasContains, hc1, hL, aliasLookup_insert, optOr]
      · have hL' : ¬ "stable" = strLower s := fun h => hL h.symm
        cases hc2 : aliasLookup al (strLower s) with
        | some w2 =>
          simp [applyMarkerAliases, aliasContains, hc1, hc2, aliasLookup_insert, hL, hL', optOr]
        | none =>
          simp [applyMarkerAliases, aliasContains, hc1, hc2, aliasLookup_insert, hL, hL', optOr]
  · rw [if_neg hA]
    have hA' : ¬ "stable" = a := fun h => hA h.symm
    by_cases hL : strLower s = a
    · rw [if_pos hL]
      cases hc2 : aliasLookup al a with
      | some w =>
        cases hc1 : aliasLookup al "stable" with
        | some w1 =>
          simp [applyMarkerAliases, aliasContains, hc1, hc2, hL, aliasLookup_insert, hA', optOr]
        | none =>
          simp [applyMarkerAliases, aliasContains, hc1, hc2, hL, aliasLookup_insert, hA', optOr]
      | none =>
        cases hc1 : aliasLookup al "stable" with
        | some w1 =>
          simp [applyMarkerAliases, aliasContains, hc1, hc2, hL, aliasLookup_insert, hA', optOr]
        | none =>
          simp [applyMarkerAliases, aliasContains, hc1, hc2, hL, aliasLookup_insert, hA', optOr]
    · rw [if_neg hL]
      cases hc1 : aliasLookup al "stable" with
      | some w1 =>
        cases hc2 : aliasLookup al (strLower s) with
        | some w2 => simp [applyMarkerAliases, aliasContains, hc1, hc2, aliasLookup_insert, hA', hL]
        | none => simp [applyMarkerAliases, aliasContains, hc1, hc2, aliasLookup_insert, hA', hL]
      | none =>
        cases hc2 : aliasLookup al (strLower s) with
        | some w2 =>
          by_cases hLs : strLower s = "stable"
          · simp [applyMarkerAliases, aliasContains, hc1, hc2, aliasLookup_insert, hA', hL, hLs]
          · have hLs' : ¬ "stable" = strLower s := fun h => hLs h.symm
            simp [applyMarkerAliases, aliasContains, hc1, hc2, aliasLookup_insert, hA', hL, hLs, hLs']
        | none =>
          by_cases hLs : strLower s = "stable"
          · simp [applyMarkerAliases, aliasContains, hc1, hc2, aliasLookup_insert, hA', hL, hLs]
          · have hLs' : ¬ "stable" = strLower s := fun h => hLs h.symm
            simp [applyMarkerAliases, aliasContains, hc1, hc2, aliasLookup_insert, hA', hL, hLs, hLs']

theorem optOr_none (x : Option Version) : optOr x none = x := by cases x <;> rfl

theorem optOr_absorb (x : Option Version) (v : Version) (z : Option Version) :
    optOr (optOr x (some v)) z = optOr x (some v) := by cases x <;> rfl

theorem specAlias_nil (a : String) : specAlias a [] = none := by simp [specAlias]

theorem specAlias_cons_state (a : String) (item : NodeDistVersion) (b : Bool)
    (rest : List NodeDistVersion) (hm : item.lts = .state b) :
    specAlias a (item :: rest) = specAlias a rest := by
  have h1 : hasMarker item = false := by simp [hasMarker, hm]
  simp [specAlias, List.find?_cons, h1, lowerMarker, hm]

theorem specAlias_cons_name (a : String) (item : NodeDistVersion) (s : String) (v : Version)
    (rest : List NodeDistVersion) (hm : item.lts = .name s)
    (hv : parseNodeVersion item.version = .ok v) :
    specAlias a (item :: rest) =
      if a = "stable" then some v
      else if strLower s = a then some v
      else specAlias a rest := by
  have hpo : parsedOf item = some v := by simp [parsedOf, hv, Except.toOption]
  have hmk : hasMarker item = true := by simp [hasMarker, hm]
  by_cases hA : a = "stable"
  · subst hA
    simp [specAlias, List.find?_cons, hmk, hpo]
  · by_cases hL : strLower s = a
    · simp [specAlias, hA, List.find?_cons, lowerMarker, hm, hL, hpo]
    · simp [specAlias, hA, List.find?_cons, lowerMarker, hm, hL]

theorem loadVersionsGo_lookup (l : List NodeDistVersion) :
    ∀ (i : Nat) (acc out : LoadVersionsOutput),
      loadVersionsGo i acc l = .ok out →
      ∀ a, aliasLookup out.aliases a = optOr (aliasLookup acc.aliases a) (specAlias a l) := by
  induction l with
  | nil =>
    intro i acc out h a
    have hh : acc = out := by simpa [loadVersionsGo] using h
    rw [← hh, specAlias_nil, optOr_none]
  | cons item rest ih =>
    intro i acc out h a
    rw [loadVersionsGo] at h
    cases hv : parseNodeVersion item.version with
    | error e => rw [hv] at h; cases h
    | ok v =>
      rw [hv] at h
      have hrec := ih (i + 1) _ out h a
      have hstep : aliasLookup out.aliases a =
          optOr (aliasLookup (applyMarkerAliases acc.aliases item.lts v) a)
            (specAlias a rest) := by
        rcases eq_or_ne i 0 with h0 | h0
        · subst h0; simpa using hrec
        · rw [if_neg h0] at hrec; simpa using hrec
      rw [hstep]
      cases hm : item.lts with
      | state b =>
        rw [specAlias_cons_state a item b rest hm]
        rfl
      | name s =>
        rw [aliasLookup_applyMarkerAliases, specAlias_cons_name a item s v rest hm hv]
        by_cases hA : a = "stable"
        · rw [if_pos hA, if_pos hA, optOr_absorb]
        · rw [if_neg hA, if_neg hA]
          by_cases hL : strLower s = a
          · rw [if_pos hL, if_pos hL, optOr_absorb]
          · rw [if_neg hL, if_neg hL]

theorem loadVersionsGo_latest_succ (l : List NodeDistVersion) :
    ∀ (i : Nat) (acc out : LoadVersionsOutput),
      loadVersionsGo (i + 1) acc l = .ok out → out.latest = acc.latest := by
  induction l with
  | nil =>
    intro i acc out h
    have hh : acc = out := by simpa [loadVersionsGo] using h
    rw [← hh]
  | cons item rest ih =>
    intro i acc out h
    rw [loadVersionsGo] at h
    cases hv : parseNodeVersion item.version with
    | error e => rw [hv] at h; cases h
    | ok v =>
      rw [hv] at h
      have hrec := ih (i + 1) _ out h
      exact hrec

theorem loadVersionsGo_versions_append (l : List NodeDistVersion) :
    ∀ (i : Nat) (acc out : LoadVersionsOutput),
      loadVersionsGo i acc l = .ok out →
      ∃ t, out.versions = acc.versions ++ t := by
  induction l with
  | nil =>
    intro i acc out h
    have hh : acc = out := by simpa [loadVersionsGo] using h
    exact ⟨[], by rw [← hh]; simp⟩
  | cons item rest ih =>
    intro i acc out h
    rw [loadVersionsGo] at h
    cases hv : parseNodeVersion item.version with
    | error e => rw [hv] at h; cases h
    | ok v =>
      rw [hv] at h
      obtain ⟨t, ht⟩ := ih (i + 1) _ out h
      refine ⟨v :: t, ?_⟩
      rw [ht]
      have hv1 : (if i = 0 then { acc with latest := some v } else acc).versions =
          acc.versions := by split <;> rfl
      show ((if i = 0 then { acc with latest := some v } else acc).versions ++ [v]) ++ t =
        acc.versions ++ (v :: t)
      rw [hv1]
      simp

theorem parseNodeVersion_error_shape (raw : String) (e : Err)
    (h : parseNodeVersion raw = .error e) :
    e = .Panic "byte index 1 is out of bounds" ∨ e = .MalformedVersion raw := by
  unfold parseNodeVersion at h
  by_cases hemp : strIsEmpty raw = true
  · rw [if_pos hemp] at h
    exact Or.inl (by cases h; rfl)
  · rw [if_neg hemp] at h
    cases hp : Version.parse (strDrop raw 1) with
    | some v => rw [hp] at h; cases h
    | none => rw [hp] at h; exact Or.inr (by cases h; rfl)

theorem loadVersionsGo_error_shape (l : List NodeDistVersion) :
    ∀ (i : Nat) (acc : LoadVersionsOutput) (e : Err),
      loadVersionsGo i acc l = .error e →
      e = .Panic "byte index 1 is out of bounds" ∨ ∃ raw, e = .MalformedVersion raw := by
  induction l with
  | nil => intro i acc e h; cases h
  | cons item rest ih =>
    intro i acc e h
    rw [loadVersionsGo] at h
    cases hv : parseNodeVersion item.version with
    | error e2 =>
      rw [hv] at h
      cases h
      rcases parseNodeVersion_error_shape item.version e hv with h1 | h1
      · exact Or.inl h1
      · exact Or.inr ⟨item.version, h1⟩
    | ok v =>
      rw [hv] at h
      exact ih (i + 1) _ e h

theorem loadVersionsGo_skips_ok (p : List NodeDistVersion) :
    ∀ (i : Nat) (acc : LoadVersionsOutput) (item : NodeDistVersion)
      (rest : List NodeDistVersion) (e : Err),
      (∀ it ∈ p, ∃ v, parseNodeVersion it.version = .ok v) →
      parseNodeVersion item.version = .error e →
      loadVersionsGo i acc (p ++ item :: rest) = .error e := by
  induction p with
  | nil =>
    intro i acc item rest e _ herr
    rw [List.nil_append, loadVersionsGo, herr]
  | cons it0 p ih =>
    intro i acc item rest e hok herr
    obtain ⟨v0, hv0⟩ := hok it0 (List.mem_cons_self it0 p)
    rw [List.cons_append, loadVersionsGo, hv0]
    exact ih _ _ item rest e (fun it hit => hok it (List.mem_cons_of_mem it0 hit)) herr



/-! ## Claim theorems -/

theorem str_ne_empty_isEmpty (raw : String) (h : raw ≠ "") : strIsEmpty raw = false := by
  cases raw with
  | mk d =>
    cases d with
    | nil => exact absurd rfl h
    | cons c cs => rfl

theorem load_versions_ok_elim (resp : List NodeDistVersion) (out : LoadVersionsOutput)
    (h : load_versions resp = .ok out) :
    ∃ mid latest, loadVersionsGo 0 {} resp = .ok mid ∧ mid.latest = some latest ∧
      out = { mid with aliases := aliasInsert mid.aliases "latest" latest } := by
  unfold load_versions at h
  split at h
  · cases h
  · next mid heq =>
    split at h
    · next latest hml => cases h; exact ⟨mid, latest, heq, hml, rfl⟩
    · cases h

/-- C3: for every successful (hence non-empty) catalog load, the alias table
entry for `latest` equals the parsed version of the first raw entry,
regardless of its channel marker — the binding is written unconditionally
after the scan, overwriting anything channel data inserted under that key. -/
theorem load_versions_latest_alias (resp : List NodeDistVersion) (out : LoadVersionsOutput)
    (item0 : NodeDistVersion) (v : Version)
    (hload : load_versions resp = .ok out)
    (hhead : resp.head? = some item0)
    (hparse : parseNodeVersion item0.version = .ok v) :
    out.latest = some v ∧ aliasLookup out.aliases "latest" = some v := by
  obtain ⟨mid, latest, hgo, hml, hout⟩ := load_versions_ok_elim resp out hload
  cases resp with
  | nil => cases hhead
  | cons item rest =>
    have hi : item = item0 := by simpa using hhead
    subst hi
    have hv2 : mid.latest = some v := by
      rw [loadVersionsGo] at hgo
      rw [hparse] at hgo
      exact loadVersionsGo_latest_succ rest 0 _ mid hgo
    rw [hml] at hv2
    cases hv2
    subst hout
    refine ⟨hml, ?_⟩
    show aliasLookup (aliasInsert mid.aliases "latest" v) "latest" = some v
    rw [aliasLookup_insert, if_pos rfl]

/-- C4: for every successful catalog load, `stable` is bound to the version
of the first entry (in input order) carrying a named channel marker (absent
when none has one), and every alias other than the reserved `latest` and
`stable` keys is bound to the version of the first entry whose lower-cased
channel name equals it — first occurrence wins, later same-named entries
never overwrite, and each alias maps to exactly one version. -/
theorem load_versions_alias_table (resp : List NodeDistVersion) (out : LoadVersionsOutput)
    (hload : load_versions resp = .ok out) :
    aliasLookup out.aliases "stable" = (resp.find? hasMarker).bind parsedOf
    ∧ ∀ a, a ≠ "latest" → a ≠ "stable" →
        aliasLookup out.aliases a =
          (resp.find? (fun it => decide (lowerMarker it.lts = some a))).bind parsedOf := by
  obtain ⟨mid, latest, hgo, hml, hout⟩ := load_versions_ok_elim resp out hload
  subst hout
  have hmid := loadVersionsGo_lookup resp 0 {} mid hgo
  constructor
  · have h1 := hmid "stable"
    show aliasLookup (aliasInsert mid.aliases "latest" latest) "stable" = _
    rw [aliasLookup_insert, if_neg (by decide), h1]
    show specAlias "stable" resp = _
    rw [specAlias, if_pos rfl]
  · intro a ha hs
    have h1 := hmid a
    show aliasLookup (aliasInsert mid.aliases "latest" latest) a = _
    rw [aliasLookup_insert, if_neg (fun he => ha he.symm), h1]
    show specAlias a resp = _
    rw [specAlias, if_neg hs]

/-- C8 counterexample: the loader slices off the first character of the raw
string unconditionally, not just a leading non-digit marker. On the raw
entry `18.0.0` (no `v` marker) the leading digit `1` is removed and the
catalog records version 8.0.0 with no `MalformedVersion` error, although
`18.0.0` itself parses as the semantic version 18.0.0 — refuting the claim
that only a non-digit marker character is ever removed. -/
theorem load_versions_digit_strip_cex :
    load_versions [⟨"18.0.0", .state false⟩] =
      .ok { latest := some ⟨8, 0, 0, ""⟩
            aliases := [("latest", ⟨8, 0, 0, ""⟩)]
            versions := [⟨8, 0, 0, ""⟩] }
    ∧ Version.parse "18.0.0" = some ⟨18, 0, 0, ""⟩ := by decide

/-- C8 amended: each raw version string is stripped of its first character
unconditionally (the position the `v` marker convention occupies) before
semantic-version parsing — the catalog records the version parsed from the
sliced string — and a parse failure of the sliced string fails the load with
`MalformedVersion` naming the offending raw string, also when the failing
entry sits after well-formed ones. -/
theorem load_versions_strip_first_char (p : List NodeDistVersion) (raw : String)
    (m : NodeDistLTS) (rest : List NodeDistVersion) (hraw : raw ≠ "") :
    (∀ (v : Version) (out : LoadVersionsOutput),
        Version.parse (strDrop raw 1) = some v →
        load_versions (⟨raw, m⟩ :: rest) = .ok out →
        out.versions.head? = some v)
    ∧ ((∀ it ∈ p, ∃ w, parseNodeVersion it.version = .ok w) →
        Version.parse (strDrop raw 1) = none →
        load_versions (p ++ ⟨raw, m⟩ :: rest) = .error (.MalformedVersion raw)) := by
  constructor
  · intro v out hp hload
    have hpn : parseNodeVersion (⟨raw, m⟩ : NodeDistVersion).version = .ok v := by
      show parseNodeVersion raw = .ok v
      unfold parseNodeVersion
      rw [str_ne_empty_isEmpty raw hraw]
      rw [hp]
      rfl
    obtain ⟨mid, latest, hgo, hml, hout⟩ := load_versions_ok_elim _ out hload
    rw [loadVersionsGo] at hgo
    rw [hpn] at hgo
    obtain ⟨t, ht⟩ := loadVersionsGo_versions_append rest 1 _ mid hgo
    subst hout
    show mid.versions.head? = some v
    rw [ht]
    rfl
  · intro hall hp
    have hpn : parseNodeVersion (⟨raw, m⟩ : NodeDistVersion).version =
        .error (.MalformedVersion raw) := by
      show parseNodeVersion raw = _
      unfold parseNodeVersion
      rw [str_ne_empty_isEmpty raw hraw]
      rw [hp]
      rfl
    have hskip := loadVersionsGo_skips_ok p 0 {} ⟨raw, m⟩ rest (.MalformedVersion raw) hall hpn
    unfold load_versions
    rw [hskip]

/-- C10: both consumers of a fetched index assume non-emptiness without
checking: `load_versions` on an empty index panics unwrapping the
never-assigned latest version (a panic, not a structured error), and the
canary path of `download_prebuilt` panics indexing the first entry of an
empty nightly index instead of failing with `CatalogUnavailable`; with at
least one entry, neither the unwrap panic nor any download panic is
reachable. -/
theorem empty_index_panics :
    load_versions [] = .error (.Panic "called Option.unwrap on a None value")
    ∧ (∀ os arch, arch ∈ supportedMatrix os →
        download_prebuilt ⟨os, arch⟩ .canary (.ok []) =
          .error (.Panic "index out of bounds: the len is 0"))
    ∧ (∀ resp, resp ≠ [] →
        load_versions resp ≠ .error (.Panic "called Option.unwrap on a None value"))
    ∧ (∀ os arch (version : VersionSpec) (l : List NodeDistVersion) (msg : String),
        arch ∈ supportedMatrix os → l ≠ [] →
        download_prebuilt ⟨os, arch⟩ version (.ok l) ≠ .error (.Panic msg)) := by
  refine ⟨rfl, ?_, ?_, ?_⟩
  · intro os arch h
    cases os <;> cases arch <;> revert h <;> decide
  · intro resp hne hcontra
    cases resp with
    | nil => exact hne rfl
    | cons item rest =>
      unfold load_versions at hcontra
      split at hcontra
      · next e heq =>
        have hi : e = Err.Panic "called Option.unwrap on a None value" := by
          cases hcontra; rfl
        rcases loadVersionsGo_error_shape (item :: rest) 0 {} e heq with h1 | ⟨raw, h1⟩
        · rw [h1] at hi; exact absurd hi (by decide)
        · rw [h1] at hi; exact Err.noConfusion hi
      · next mid heq =>
        split at hcontra
        · cases hcontra
        · next hml =>
          rw [loadVersionsGo] at heq
          cases hv : parseNodeVersion item.version with
          | error e2 => rw [hv] at heq; cases heq
          | ok v =>
            rw [hv] at heq
            have hlat := loadVersionsGo_latest_succ rest 0 _ mid heq
            rw [hml] at hlat
            cases hlat
  · intro os arch version l msg hsup hl hcontra
    cases l with
    | nil => exact hl rfl
    | cons x xs =>
      cases os <;> cases arch <;> try exact absurd hsup (by decide)
      all_goals (
        cases version with
        | canary =>
          cases hp : VersionSpec.parse x.version with
          | some v =>
            simp only [download_prebuilt, check_supported_os_and_arch, map_arch,
              supportedMatrix, VersionSpec.is_canary, bind, Except.bind, List.head?,
              hp] at hcontra
            first
            | (simp at hcontra; done)
            | (cases v with
               | version v2 =>
                 by_cases h16 : v2.major < 16 <;> simp [h16] at hcontra
               | canary => simp at hcontra
               | «alias» a2 => simp at hcontra)
          | none =>
            simp only [download_prebuilt, check_supported_os_and_arch, map_arch,
              supportedMatrix, VersionSpec.is_canary, bind, Except.bind, List.head?,
              hp] at hcontra
            simp at hcontra
        | version v2 =>
          simp only [download_prebuilt, check_supported_os_and_arch, map_arch,
            supportedMatrix, VersionSpec.is_canary, bind, Except.bind,
            List.head?] at hcontra
          first
          | (simp at hcontra; done)
          | (by_cases h16 : v2.major < 16 <;> simp [h16] at hcontra)
        | «alias» a =>
          simp only [download_prebuilt, check_supported_os_and_arch, map_arch,
            supportedMatrix, VersionSpec.is_canary, bind, Except.bind,
            List.head?] at hcontra
          simp at hcontra)

/-- C9: `download_prebuilt` validates the (operating system, architecture)
pair against the fixed support matrix (Linux: x64/arm64/arm/ppc64/s390x,
macOS: x64/arm64, Windows: x64/x86/arm64) and fails with
`UnsupportedPlatform` naming both values for every pair outside it, before
any fetch or name computation — the nightly index argument, even a failed
fetch, is never consulted. -/
theorem download_prebuilt_unsupported_platform
    (os : HostOS) (arch : HostArch) (version : VersionSpec)
    (nightly : Except Err (List NodeDistVersion))
    (h : arch ∉ supportedMatrix os) :
    download_prebuilt ⟨os, arch⟩ version nightly = .error (.UnsupportedPlatform os arch) := by
  cases os <;> cases arch <;> first | rfl | exact absurd (by decide) h

theorem download_prebuilt_unsupported_platform_witness :
    download_prebuilt ⟨.MacOS, .S390x⟩ (.version ⟨20, 0, 0, ""⟩) (.error .CatalogUnavailable) =
      .error (.UnsupportedPlatform .MacOS .S390x) :=
  download_prebuilt_unsupported_platform .MacOS .S390x _ _ (by decide)

/-- C5: `resolve_version` rewrites only Alias-variant inputs and never
fails: non-alias inputs yield no replacement; the rules apply in order with
first match winning — the runtime short name `node` maps to `latest`,
exactly `lts-*` or `lts/*` map to `stable` (never falling through to the
prefix rule), any other alias starting with `lts-` or `lts/` maps to the
remainder after the 4-character prefix as-is (no lower-casing), and
everything else yields no replacement. -/
theorem resolve_version_rules :
    (∀ s : UnresolvedVersionSpec, (∀ a, s ≠ .alias a) → resolve_version s = none)
    ∧ resolve_version (.alias "node") = some (.alias "latest")
    ∧ resolve_version (.alias "lts-*") = some (.alias "stable")
    ∧ resolve_version (.alias "lts/*") = some (.alias "stable")
    ∧ (∀ a : String, (strStarts a "lts-" = true ∨ strStarts a "lts/" = true) →
        a ≠ "lts-*" → a ≠ "lts/*" →
        resolve_version (.alias a) = some (.alias (strDrop a 4)))
    ∧ (∀ a : String, a ≠ "node" → strStarts a "lts-" = false → strStarts a "lts/" = false →
        resolve_version (.alias a) = none) := by
  refine ⟨?_, by decide, by decide, by decide, ?_, ?_⟩
  · intro s h
    cases s with
    | «alias» a => exact absurd rfl (h a)
    | canary => rfl
    | req e => rfl
    | version v => rfl
  · intro a hst h1 h2
    have hna : ¬ a = BIN := by
      rintro rfl
      rcases hst with h | h <;> exact absurd h (by decide)
    show (if a = BIN then some (UnresolvedVersionSpec.alias "latest")
      else if a = "lts-*" || a = "lts/*" then some (UnresolvedVersionSpec.alias "stable")
      else if strStarts a "lts-" || strStarts a "lts/" then
        some (UnresolvedVersionSpec.alias (strDrop a 4))
      else none) = some (UnresolvedVersionSpec.alias (strDrop a 4))
    rw [if_neg hna, if_neg (by simp [h1, h2]), if_pos (by rcases hst with h | h <;> simp [h])]
  · intro a hna h1 h2
    have e1 : ¬ a = "lts-*" := by rintro rfl; exact absurd h1 (by decide)
    have e2 : ¬ a = "lts/*" := by rintro rfl; exact absurd h2 (by decide)
    show (if a = BIN then some (UnresolvedVersionSpec.alias "latest")
      else if a = "lts-*" || a = "lts/*" then some (UnresolvedVersionSpec.alias "stable")
      else if strStarts a "lts-" || strStarts a "lts/" then
        some (UnresolvedVersionSpec.alias (strDrop a 4))
      else none) = none
    rw [if_neg (show ¬ a = BIN from hna), if_neg (by simp [e1, e2]),
      if_neg (by simp [h1, h2])]

theorem resolve_version_rules_witness :
    resolve_version (.alias "lts-Hydrogen") = some (.alias "Hydrogen")
    ∧ resolve_version (.req ">=18") = none
    ∧ resolve_version (.alias "latest") = none := by
  have h := resolve_version_rules
  exact ⟨(h.2.2.2.2.1 "lts-Hydrogen" (Or.inl (by decide)) (by decide) (by decide)).trans
      (by decide),
    h.1 (.req ">=18") (fun a hc => UnresolvedVersionSpec.noConfusion hc),
    h.2.2.2.2.2 "latest" (by decide) (by decide) (by decide)⟩

/-- C6: for every file identifier other than `package.json`,
`parse_version_file` parses the entire (trimmed) content directly as an
UnresolvedVersionSpec and returns it, and a parse failure is fatal with
`InvalidVersionSpec` rather than "no constraint found": `18.10.0` yields
the exact version 18.10.0, `not-a-version` fails. -/
theorem parse_version_file_pin_rules :
    (∀ (file content : String) (spec : UnresolvedVersionSpec), file ≠ "package.json" →
        UnresolvedVersionSpec.parse content = some spec →
        parse_version_file file content = .ok (some spec))
    ∧ (∀ (file content : String), file ≠ "package.json" →
        UnresolvedVersionSpec.parse content = none →
        parse_version_file file content = .error (.InvalidVersionSpec content))
    ∧ parse_version_file ".nvmrc" "18.10.0" = .ok (some (.version ⟨18, 10, 0, ""⟩))
    ∧ parse_version_file ".nvmrc" "not-a-version" =
        .error (.InvalidVersionSpec "not-a-version") := by
  refine ⟨?_, ?_, by decide, by decide⟩
  · intro file content spec hf hp
    unfold parse_version_file
    rw [if_neg hf]
    unfold parseSpecOrFail
    rw [hp]
  · intro file content hf hp
    unfold parse_version_file
    rw [if_neg hf]
    unfold parseSpecOrFail
    rw [hp]

theorem parse_version_file_pin_rules_witness :
    parse_version_file ".node-version" "18.10.0" = .ok (some (.version ⟨18, 10, 0, ""⟩))
    ∧ parse_version_file ".node-version" "16.x" = .error (.InvalidVersionSpec "16.x") := by
  have h := parse_version_file_pin_rules
  exact ⟨h.1 ".node-version" "18.10.0" (.version ⟨18, 10, 0, ""⟩) (by decide) (by decide),
    h.2.1 ".node-version" "16.x" (by decide) (by decide)⟩

/-- C7: for the manifest file name `package.json`, `parse_version_file`
returns "no constraint found" (not an error) when the content fails to
deserialize, when the manifest lacks an `engines` mapping, and when the
mapping has no entry for the runtime binary name `node`; when the entry is
present its value is parsed and returned, e.g. an engines entry `>=18`
yields the range constraint `>=18`, while `not json` yields no constraint. -/
theorem parse_version_file_manifest_rules :
    (∀ content, PackageJson.from_str content = none →
        parse_version_file "package.json" content = .ok none)
    ∧ (∀ content pj, PackageJson.from_str content = some pj → pj.engines = none →
        parse_version_file "package.json" content = .ok none)
    ∧ (∀ content pj e, PackageJson.from_str content = some pj → pj.engines = some e →
        strMapLookup e BIN = none →
        parse_version_file "package.json" content = .ok none)
    ∧ (∀ content pj e c spec, PackageJson.from_str content = some pj →
        pj.engines = some e → strMapLookup e BIN = some c →
        UnresolvedVersionSpec.parse c = some spec →
        parse_version_file "package.json" content = .ok (some spec))
    ∧ parse_version_file "package.json" "\x7b\"engines\":\x7b\"node\":\">=18\"\x7d\x7d" =
        .ok (some (.req ">=18"))
    ∧ parse_version_file "package.json" "not json" = .ok none := by
  refine ⟨?_, ?_, ?_, ?_, by decide, by decide⟩
  · intro content hps
    unfold parse_version_file
    rw [if_pos rfl, hps]
  · intro content pj hps he
    unfold parse_version_file
    rw [if_pos rfl, hps]
    show parseManifestEngines pj.engines = .ok none
    rw [he]
    rfl
  · intro content pj e hps he hl
    unfold parse_version_file
    rw [if_pos rfl, hps]
    show parseManifestEngines pj.engines = .ok none
    rw [he]
    simp [parseManifestEngines, hl]
  · intro content pj e c spec hps he hl hp
    unfold parse_version_file
    rw [if_pos rfl, hps]
    show parseManifestEngines pj.engines = .ok (some spec)
    rw [he]
    simp [parseManifestEngines, hl, parseSpecOrFail, hp]

theorem parse_version_file_manifest_rules_witness :
    parse_version_file "package.json" "\x7b\"engines\":\x7b\"node\":\"^20.0.0\"\x7d\x7d" =
      .ok (some (.req "^20.0.0"))
    ∧ parse_version_file "package.json" "\x7b\x7d" = .ok none := by
  have h := parse_version_file_manifest_rules
  exact ⟨h.2.2.2.1 "\x7b\"engines\":\x7b\"node\":\"^20.0.0\"\x7d\x7d"
      ⟨none, some [("node", "^20.0.0")], none, none, none, none, none⟩
      [("node", "^20.0.0")] "^20.0.0" (.req "^20.0.0") (by decide) rfl (by decide) (by decide),
    h.2.1 "\x7b\x7d" ⟨none, none, none, none, none, none, none⟩ (by decide) rfl⟩

/-- C1: in the artifact locator, the macOS build-name prefix forces the
architecture token to `x64` whenever the host is arm64 and the resolved
version has major below 16, uses the native `arm64` token from major 16 on,
and skips the compatibility check (using the native token) when canary
resolution produces no concrete version. -/
theorem download_prebuilt_macos_arm64_rosetta :
    (∀ (v : Version) (n : Except Err (List NodeDistVersion)), v.major < 16 →
        download_prebuilt ⟨.MacOS, .Arm64⟩ (.version v) n =
          .ok { archive_base := some ("node-v" ++ v.toString ++ "-darwin-x64")
                download_url := "https://nodejs.org/download/release/v" ++ v.toString ++
                  "/node-v" ++ v.toString ++ "-darwin-x64.tar.xz"
                download_name := some ("node-v" ++ v.toString ++ "-darwin-x64.tar.xz")
                checksum_url := some ("https://nodejs.org/download/release/v" ++
                  v.toString ++ "/SHASUMS256.txt") })
    ∧ (∀ (v : Version) (n : Except Err (List NodeDistVersion)), 16 ≤ v.major →
        download_prebuilt ⟨.MacOS, .Arm64⟩ (.version v) n =
          .ok { archive_base := some ("node-v" ++ v.toString ++ "-darwin-arm64")
                download_url := "https://nodejs.org/download/release/v" ++ v.toString ++
                  "/node-v" ++ v.toString ++ "-darwin-arm64.tar.xz"
                download_name := some ("node-v" ++ v.toString ++ "-darwin-arm64.tar.xz")
                checksum_url := some ("https://nodejs.org/download/release/v" ++
                  v.toString ++ "/SHASUMS256.txt") })
    ∧ (∀ (m : NodeDistLTS) (rest : List NodeDistVersion),
        download_prebuilt ⟨.MacOS, .Arm64⟩ .canary (.ok (⟨"canary", m⟩ :: rest)) =
          .ok { archive_base := some "node-vcanary-darwin-arm64"
                download_url :=
                  "https://nodejs.org/download/nightly/vcanary/node-vcanary-darwin-arm64.tar.xz"
                download_name := some "node-vcanary-darwin-arm64.tar.xz"
                checksum_url :=
                  some "https://nodejs.org/download/nightly/vcanary/SHASUMS256.txt" }) := by
  have hm1 : ∀ s : String, "https://nodejs.org/download/release" ++ ("/v" ++ s) =
      "https://nodejs.org/download/release/v" ++ s := strMergeL _ _ _ rfl
  have hm2 : ∀ s : String, "/" ++ ("node-v" ++ s) = "/node-v" ++ s := strMergeL _ _ _ rfl
  refine ⟨?_, ?_, ?_⟩
  · intro v n h16
    have hlt : v.major < 16 := h16
    simp only [download_prebuilt, check_supported_os_and_arch, map_arch, supportedMatrix,
      VersionSpec.is_canary, bind, Except.bind, VersionSpec.toString, releaseHost]
    simp [hlt, String.append_assoc, hm1, hm2]
  · intro v n h16
    have hge : ¬ v.major < 16 := Nat.not_lt.mpr h16
    simp only [download_prebuilt, check_supported_os_and_arch, map_arch, supportedMatrix,
      VersionSpec.is_canary, bind, Except.bind, VersionSpec.toString, releaseHost]
    simp [hge, String.append_assoc, hm1, hm2]
  · intro m rest
    rfl

/-- C2: for every supported platform and concrete resolved version,
`download_prebuilt` returns download URL `<host>/v<version>/<prefix>.<ext>`
and checksum URL `<host>/v<version>/SHASUMS256.txt`, with extension `.zip`
on Windows and `.tar.xz` elsewhere; on Windows/x64 the prefix is
`node-v<version>-win-x64`, and on Linux/x64 for 20.10.0 the download URL is
the expected release URL. -/
theorem download_prebuilt_url_scheme :
    (∀ (os : HostOS) (arch : HostArch) (v : Version)
        (n : Except Err (List NodeDistVersion)), arch ∈ supportedMatrix os →
        ∃ pre : String,
          download_prebuilt ⟨os, arch⟩ (.version v) n =
            .ok { archive_base := some pre
                  download_url := "https://nodejs.org/download/release/v" ++ v.toString ++
                    "/" ++ pre ++ (if os = .Windows then ".zip" else ".tar.xz")
                  download_name := some (pre ++ (if os = .Windows then ".zip" else ".tar.xz"))
                  checksum_url := some ("https://nodejs.org/download/release/v" ++
                    v.toString ++ "/SHASUMS256.txt") })
    ∧ (∀ (v : Version) (n : Except Err (List NodeDistVersion)),
        download_prebuilt ⟨.Windows, .X64⟩ (.version v) n =
          .ok { archive_base := some ("node-v" ++ v.toString ++ "-win-x64")
                download_url := "https://nodejs.org/download/release/v" ++ v.toString ++
                  "/node-v" ++ v.toString ++ "-win-x64.zip"
                download_name := some ("node-v" ++ v.toString ++ "-win-x64.zip")
                checksum_url := some ("https://nodejs.org/download/release/v" ++
                  v.toString ++ "/SHASUMS256.txt") })
    ∧ download_prebuilt ⟨.Linux, .X64⟩ (.version ⟨20, 10, 0, ""⟩) (.error .CatalogUnavailable) =
        .ok { archive_base := some "node-v20.10.0-linux-x64"
              download_url :=
                "https://nodejs.org/download/release/v20.10.0/node-v20.10.0-linux-x64.tar.xz"
              download_name := some "node-v20.10.0-linux-x64.tar.xz"
              checksum_url :=
                some "https://nodejs.org/download/release/v20.10.0/SHASUMS256.txt" } := by
  have hm1 : ∀ s : String, "https://nodejs.org/download/release" ++ ("/v" ++ s) =
      "https://nodejs.org/download/release/v" ++ s := strMergeL _ _ _ rfl
  have hm2 : ∀ s : String, "/" ++ ("node-v" ++ s) = "/node-v" ++ s := strMergeL _ _ _ rfl
  refine ⟨?_, ?_, by decide⟩
  · intro os arch v n hsup
    cases os <;> cases arch <;> try exact absurd hsup (by decide)
    case Linux.X64 =>
      refine ⟨"node-v" ++ v.toString ++ "-linux-x64", ?_⟩
      simp only [download_prebuilt, check_supported_os_and_arch, map_arch, supportedMatrix,
        VersionSpec.is_canary, bind, Except.bind, VersionSpec.toString, releaseHost]
      simp [String.append_assoc, hm1, hm2]
    case Linux.Arm64 =>
      refine ⟨"node-v" ++ v.toString ++ "-linux-arm64", ?_⟩
      simp only [download_prebuilt, check_supported_os_and_arch, map_arch, supportedMatrix,
        VersionSpec.is_canary, bind, Except.bind, VersionSpec.toString, releaseHost]
      simp [String.append_assoc, hm1, hm2]
    case Linux.Arm =>
      refine ⟨"node-v" ++ v.toString ++ "-linux-armv7l", ?_⟩
      simp only [download_prebuilt, check_supported_os_and_arch, map_arch, supportedMatrix,
        VersionSpec.is_canary, bind, Except.bind, VersionSpec.toString, releaseHost]
      simp [String.append_assoc, hm1, hm2]
    case Linux.Powerpc64 =>
      refine ⟨"node-v" ++ v.toString ++ "-linux-ppc64le", ?_⟩
      simp only [download_prebuilt, check_supported_os_and_arch, map_arch, supportedMatrix,
        VersionSpec.is_canary, bind, Except.bind, VersionSpec.toString, releaseHost]
      simp [String.append_assoc, hm1, hm2]
    case Linux.S390x =>
      refine ⟨"node-v" ++ v.toString ++ "-linux-s390x", ?_⟩
      simp only [download_prebuilt, check_supported_os_and_arch, map_arch, supportedMatrix,
        VersionSpec.is_canary, bind, Except.bind, VersionSpec.toString, releaseHost]
      simp [String.append_assoc, hm1, hm2]
    case MacOS.X64 =>
      refine ⟨"node-v" ++ v.toString ++ "-darwin-x64", ?_⟩
      simp only [download_prebuilt, check_supported_os_and_arch, map_arch, supportedMatrix,
        VersionSpec.is_canary, bind, Except.bind, VersionSpec.toString, releaseHost]
      simp [String.append_assoc, hm1, hm2]
    case MacOS.Arm64 =>
      by_cases h16 : v.major < 16
      · refine ⟨"node-v" ++ v.toString ++ "-darwin-x64", ?_⟩
        simp only [download_prebuilt, check_supported_os_and_arch, map_arch, supportedMatrix,
          VersionSpec.is_canary, bind, Except.bind, VersionSpec.toString, releaseHost]
        simp [h16, String.append_assoc, hm1, hm2]
      · refine ⟨"node-v" ++ v.toString ++ "-darwin-arm64", ?_⟩
        simp only [download_prebuilt, check_supported_os_and_arch, map_arch, supportedMatrix,
          VersionSpec.is_canary, bind, Except.bind, VersionSpec.toString, releaseHost]
        simp [h16, String.append_assoc, hm1, hm2]
    case Windows.X64 =>
      refine ⟨"node-v" ++ v.toString ++ "-win-x64", ?_⟩
      simp only [download_prebuilt, check_supported_os_and_arch, map_arch, supportedMatrix,
        VersionSpec.is_canary, bind, Except.bind, VersionSpec.toString, releaseHost]
      simp [String.append_assoc, hm1, hm2]
    case Windows.X86 =>
      refine ⟨"node-v" ++ v.toString ++ "-win-x86", ?_⟩
      simp only [download_prebuilt, check_supported_os_and_arch, map_arch, supportedMatrix,
        VersionSpec.is_canary, bind, Except.bind, VersionSpec.toString, releaseHost]
      simp [String.append_assoc, hm1, hm2]
    case Windows.Arm64 =>
      refine ⟨"node-v" ++ v.toString ++ "-win-arm64", ?_⟩
      simp only [download_prebuilt, check_supported_os_and_arch, map_arch, supportedMatrix,
        VersionSpec.is_canary, bind, Except.bind, VersionSpec.toString, releaseHost]
      simp [String.append_assoc, hm1, hm2]
  · intro v n
    simp only [download_prebuilt, check_supported_os_and_arch, map_arch, supportedMatrix,
      VersionSpec.is_canary, bind, Except.bind, VersionSpec.toString, releaseHost]
    simp [String.append_assoc, hm1, hm2]

/-! ## Claim witnesses -/

theorem download_prebuilt_macos_arm64_rosetta_witness :
    download_prebuilt ⟨.MacOS, .Arm64⟩ (.version ⟨14, 0, 0, ""⟩) (.error .CatalogUnavailable) =
      .ok { archive_base := some "node-v14.0.0-darwin-x64"
            download_url :=
              "https://nodejs.org/download/release/v14.0.0/node-v14.0.0-darwin-x64.tar.xz"
            download_name := some "node-v14.0.0-darwin-x64.tar.xz"
            checksum_url := some "https://nodejs.org/download/release/v14.0.0/SHASUMS256.txt" }
    ∧ download_prebuilt ⟨.MacOS, .Arm64⟩ (.version ⟨18, 0, 0, ""⟩) (.error .CatalogUnavailable) =
      .ok { archive_base := some "node-v18.0.0-darwin-arm64"
            download_url :=
              "https://nodejs.org/download/release/v18.0.0/node-v18.0.0-darwin-arm64.tar.xz"
            download_name := some "node-v18.0.0-darwin-arm64.tar.xz"
            checksum_url := some "https://nodejs.org/download/release/v18.0.0/SHASUMS256.txt" } := by
  have h := download_prebuilt_macos_arm64_rosetta
  exact ⟨(h.1 ⟨14, 0, 0, ""⟩ (.error .CatalogUnavailable) (by decide)).trans (by decide),
    (h.2.1 ⟨18, 0, 0, ""⟩ (.error .CatalogUnavailable) (by decide)).trans (by decide)⟩

theorem download_prebuilt_url_scheme_witness :
    download_prebuilt ⟨.Linux, .X64⟩ (.version ⟨20, 10, 0, ""⟩) (.error .CatalogUnavailable) =
      .ok { archive_base := some "node-v20.10.0-linux-x64"
            download_url :=
              "https://nodejs.org/download/release/v20.10.0/node-v20.10.0-linux-x64.tar.xz"
            download_name := some "node-v20.10.0-linux-x64.tar.xz"
            checksum_url := some "https://nodejs.org/download/release/v20.10.0/SHASUMS256.txt" }
    ∧ download_prebuilt ⟨.Windows, .X64⟩ (.version ⟨20, 10, 0, ""⟩) (.error .CatalogUnavailable) =
      .ok { archive_base := some "node-v20.10.0-win-x64"
            download_url :=
              "https://nodejs.org/download/release/v20.10.0/node-v20.10.0-win-x64.zip"
            download_name := some "node-v20.10.0-win-x64.zip"
            checksum_url := some "https://nodejs.org/download/release/v20.10.0/SHASUMS256.txt" } := by
  have h := download_prebuilt_url_scheme
  obtain ⟨pre, hpre⟩ :=
    h.1 .Linux .X64 ⟨20, 10, 0, ""⟩ (.error .CatalogUnavailable) (by decide)
  exact ⟨by decide, (h.2.1 ⟨20, 10, 0, ""⟩ (.error .CatalogUnavailable)).trans (by decide)⟩

theorem load_versions_latest_alias_witness :
    sampleOut.latest = some ⟨20, 0, 0, ""⟩
    ∧ aliasLookup sampleOut.aliases "latest" = some ⟨20, 0, 0, ""⟩ :=
  load_versions_latest_alias sampleResp sampleOut ⟨"v20.0.0", .state false⟩ ⟨20, 0, 0, ""⟩
    (by decide) rfl (by decide)

theorem load_versions_alias_table_witness :
    aliasLookup sampleOutLts.aliases "stable" = some ⟨18, 18, 2, ""⟩
    ∧ aliasLookup sampleOutLts.aliases "hydrogen" = some ⟨18, 18, 2, ""⟩ := by
  have h := load_versions_alias_table sampleRespLts sampleOutLts (by decide)
  exact ⟨h.1.trans (by decide), (h.2 "hydrogen" (by decide) (by decide)).trans (by decide)⟩

theorem load_versions_strip_first_char_witness :
    sampleOut.versions.head? = some ⟨20, 0, 0, ""⟩
    ∧ load_versions [⟨"v20.0.0", .state false⟩, ⟨"vgarbage", .state false⟩] =
        .error (.MalformedVersion "vgarbage") := by
  have h1 := load_versions_strip_first_char [] "v20.0.0" (.state false) [] (by decide)
  have h2 := load_versions_strip_first_char [⟨"v20.0.0", .state false⟩] "vgarbage"
    (.state false) [] (by decide)
  refine ⟨h1.1 ⟨20, 0, 0, ""⟩ sampleOut (by decide) (by decide), ?_⟩
  have hall : ∀ it ∈ [(⟨"v20.0.0", .state false⟩ : NodeDistVersion)],
      ∃ w, parseNodeVersion it.version = .ok w := by
    intro it hit
    simp only [List.mem_singleton] at hit
    subst hit
    exact ⟨⟨20, 0, 0, ""⟩, by decide⟩
  exact h2.2 hall (by decide)

theorem empty_index_panics_witness :
    download_prebuilt ⟨.Linux, .X64⟩ .canary (.ok []) =
      .error (.Panic "index out of bounds: the len is 0")
    ∧ load_versions [⟨"v20.0.0", .state false⟩] ≠
        .error (.Panic "called Option.unwrap on a None value")
    ∧ download_prebuilt ⟨.Linux, .X64⟩ .canary
        (.ok [⟨"v22.0.0-nightly20231005", .state false⟩]) ≠
        .error (.Panic "index out of bounds: the len is 0") := by
  have h := empty_index_panics
  exact ⟨h.2.1 .Linux .X64 (by decide),
    h.2.2.1 [⟨"v20.0.0", .state false⟩] (by decide),
    h.2.2.2 .Linux .X64 .canary [⟨"v22.0.0-nightly20231005", .state false⟩]
      "index out of bounds: the len is 0" (by decide) (by decide)⟩

end NodePlugin
